import Mathlib

/-!
Verification development for the `mkdocs_gen_files` plugin
(`src/mkdocs_gen_files/plugin.py`).

The plugin has three hooks:
* `on_files` — chooses a staging directory, runs the configured scripts inside
  a `with FilesEditor(...)` block (the editor's exit/reconciliation runs on all
  paths), snapshots the editor's `edit_paths` dict, applies a best-effort
  `edit_uri` workaround over the host file collection, and returns the
  editor's reconciled files;
* `on_page_content` — pops the page's entry from the edit-path dict and, when
  both `repo_url` and `edit_uri` are configured (truthy), computes
  `urllib.parse.urljoin(urllib.parse.urljoin(repo_url, edit_uri), path)` after
  ensuring `repo_url` ends with a slash (unless `edit_uri` starts with `?` or
  `#`), storing the result in `page.edit_url`; the HTML is returned unchanged;
* `on_post_build` — best-effort removal of the staging directory
  (`shutil.rmtree(..., ignore_errors=True)` inside `try/except: pass`), then a
  single aggregated warning for the unused truthy edit paths.

Everything below is a shallow embedding of that file.  Strings are Lean
`String`s; Python dicts over string keys are association lists in insertion
order with unique keys (uniqueness is a hypothesis where a theorem needs it);
Python truthiness of strings and exit codes is modelled explicitly.
-/

set_option autoImplicit false

namespace GenFiles

/-! ### Python string / option truthiness -/

/-- Truthiness of a Python string: falsy iff empty. -/
def truthyStr (s : String) : Bool := !(s == "")

/-- Truthiness of an optional Python string (`None` and `""` are falsy). -/
def truthyOpt : Option String → Bool
  | none => false
  | some s => truthyStr s

/-! ### CPython `urllib.parse` port

A faithful port of CPython's `urlsplit` / `urlunsplit` / `urljoin`
(`Lib/urllib/parse.py`) restricted to what the plugin can reach:
`allow_fragments=True`, no `;params` handling (exact for URLs whose path
contains no `;`), and no bracketed-IPv6 host validation.  Internally we work
on `List Char`. -/

/-- Characters allowed in a URL scheme after the initial letter. -/
def schemeChar (c : Char) : Bool :=
  c.isAlpha || c.isDigit || c == '+' || c == '-' || c == '.'

/-- Split a character list at the first occurrence of `c` (the separator is
dropped); `none` if `c` does not occur. -/
def splitAtFirst (c : Char) : List Char → Option (List Char × List Char)
  | [] => none
  | x :: xs =>
    if x == c then some ([], xs)
    else
      match splitAtFirst c xs with
      | none => none
      | some (a, b) => some (x :: a, b)

/-- `url.find(':')`-based scheme detection of CPython `urlsplit`: the part
before the first `:` must be nonempty, start with an ASCII letter and consist
of scheme characters; the scheme is lowercased.  Returns `(scheme, rest)`
with `scheme = []` when no scheme is recognised. -/
def splitScheme (url : List Char) : List Char × List Char :=
  match splitAtFirst ':' url with
  | none => ([], url)
  | some (before, after) =>
    match before with
    | [] => ([], url)
    | c :: cs =>
      if c.isAlpha && (c :: cs).all schemeChar then ((c :: cs).map Char.toLower, after)
      else ([], url)

/-- Consume the netloc: everything up to the first `/`, `?` or `#`. -/
def spanNetloc : List Char → List Char × List Char
  | [] => ([], [])
  | c :: cs =>
    if c == '/' || c == '?' || c == '#' then ([], c :: cs)
    else
      let (a, b) := spanNetloc cs
      (c :: a, b)

/-- The five components of CPython `urlsplit`. -/
structure SplitUrl where
  scheme : List Char
  netloc : List Char
  path : List Char
  query : List Char
  fragment : List Char
deriving DecidableEq

/-- CPython `urlsplit(url)` with `allow_fragments=True`. -/
def urlsplit (url : List Char) : SplitUrl :=
  let (scheme, rest) := splitScheme url
  let (netloc, rest) :=
    match rest with
    | '/' :: '/' :: r => spanNetloc r
    | _ => ([], rest)
  let (rest, fragment) :=
    match splitAtFirst '#' rest with
    | some (a, b) => (a, b)
    | none => (rest, [])
  let (path, query) :=
    match splitAtFirst '?' rest with
    | some (a, b) => (a, b)
    | none => (rest, [])
  ⟨scheme, netloc, path, query, fragment⟩

/-- CPython `urlunsplit`. -/
def urlunsplit (s : SplitUrl) : List Char :=
  let url0 := s.path
  let url1 :=
    if s.netloc ≠ [] ∨ url0.take 2 = ['/', '/'] then
      let u := if url0 ≠ [] ∧ url0.head? ≠ some '/' then '/' :: url0 else url0
      '/' :: '/' :: (s.netloc ++ u)
    else url0
  let url2 := if s.scheme ≠ [] then s.scheme ++ ':' :: url1 else url1
  let url3 := if s.query ≠ [] then url2 ++ '?' :: s.query else url2
  if s.fragment ≠ [] then url3 ++ '#' :: s.fragment else url3

/-- CPython `uses_relative` scheme list. -/
def usesRelative : List (List Char) :=
  ["", "ftp", "http", "gopher", "nntp", "imap", "wais", "file", "https", "shttp",
   "mms", "prospero", "rtsp", "rtspu", "sftp", "svn", "svn+ssh", "ws", "wss"].map String.data

/-- CPython `uses_netloc` scheme list. -/
def usesNetloc : List (List Char) :=
  ["", "ftp", "http", "gopher", "nntp", "telnet", "imap", "wais", "file", "mms",
   "https", "shttp", "snews", "prospero", "rtsp", "rtspu", "rsync", "svn",
   "svn+ssh", "sftp", "nfs", "git", "git+ssh", "ws", "wss", "itms-services"].map String.data

/-- `str.split('/')`. -/
def splitSlash : List Char → List (List Char)
  | [] => [[]]
  | c :: cs =>
    if c == '/' then [] :: splitSlash cs
    else
      match splitSlash cs with
      | [] => [[c]]
      | a :: rest => (c :: a) :: rest

/-- `'/'.join(...)`. -/
def joinSlash : List (List Char) → List Char
  | [] => []
  | [x] => x
  | x :: xs => x ++ '/' :: joinSlash xs

/-- `segments[1:-1] = filter(None, segments[1:-1])`: drop empty segments, but
keep the first and last elements whatever they are.  The auxiliary pass
filters everything except the final element. -/
def filterMiddleAux : List (List Char) → List (List Char)
  | [] => []
  | [x] => [x]
  | x :: xs => if x = [] then filterMiddleAux xs else x :: filterMiddleAux xs

/-- See `filterMiddleAux`: keeps position 0 unconditionally. -/
def filterMiddle : List (List Char) → List (List Char)
  | [] => []
  | [x] => [x]
  | x :: xs => x :: filterMiddleAux xs

/-- The dot-segment resolution loop of CPython `urljoin` (`..` pops, `.` is
skipped; popping an empty stack is a no-op, matching the
`try: pop except IndexError: pass`). -/
def resolveSegs (segs : List (List Char)) : List (List Char) :=
  segs.foldl
    (fun acc seg =>
      if seg = ['.', '.'] then acc.dropLast
      else if seg = ['.'] then acc
      else acc ++ [seg])
    []

/-- CPython `urljoin(base, url)` on character lists. -/
def urljoinC (base url : List Char) : List Char :=
  if base = [] then url
  else if url = [] then base
  else
    let b := urlsplit base
    let u := urlsplit url
    let scheme := if u.scheme = [] then b.scheme else u.scheme
    if scheme ≠ b.scheme ∨ ¬ usesRelative.contains scheme then url
    else if usesNetloc.contains scheme ∧ u.netloc ≠ [] then
      urlunsplit ⟨scheme, u.netloc, u.path, u.query, u.fragment⟩
    else
      let netloc := if usesNetloc.contains scheme then b.netloc else u.netloc
      if u.path = [] then
        let query := if u.query = [] then b.query else u.query
        urlunsplit ⟨scheme, netloc, b.path, query, u.fragment⟩
      else
        let segments :=
          if u.path.head? = some '/' then splitSlash u.path
          else
            let baseParts := splitSlash b.path
            let baseParts :=
              if baseParts.getLast? ≠ some [] then baseParts.dropLast else baseParts
            filterMiddle (baseParts ++ splitSlash u.path)
        let resolved := resolveSegs segments
        let resolved :=
          if segments.getLast? = some ['.'] ∨ segments.getLast? = some ['.', '.'] then
            resolved ++ [[]]
          else resolved
        let path := joinSlash resolved
        let path := if path = [] then ['/'] else path
        urlunsplit ⟨scheme, netloc, path, u.query, u.fragment⟩

/-- `urllib.parse.urljoin` on `String`s. -/
def urljoin (base url : String) : String := ⟨urljoinC base.data url.data⟩

example : urljoin "https://example.com/repo/" "edit/main/" = "https://example.com/repo/edit/main/" := by decide

example : urljoin "https://example.com/repo/edit/main/" "docs/x.md" =
    "https://example.com/repo/edit/main/docs/x.md" := by decide

/-! ### Script execution (`on_files`, lines 50–56)

A script run under `runpy.run_path` either returns normally, raises
`SystemExit` with some code (`sys.exit(code)`: `None`, an `int` or a `str`),
or raises some other exception.  The writes a script performs through the
editor before it terminates, and its `set_edit_path` calls, are recorded in
the script description. -/

/-- The `code` attribute of a Python `SystemExit`. -/
inductive PyExitCode where
  | noneCode : PyExitCode
  | intCode (n : ℤ) : PyExitCode
  | strCode (s : String) : PyExitCode
deriving DecidableEq

/-- Python truthiness of a `SystemExit.code` (`if e.code:`). -/
def pyTruthy : PyExitCode → Bool
  | .noneCode => false
  | .intCode n => !(n == 0)
  | .strCode s => truthyStr s

/-- How one script terminates. -/
inductive ScriptOutcome where
  | normal : ScriptOutcome
  | systemExit (code : PyExitCode) : ScriptOutcome
  | raises (err : String) : ScriptOutcome
deriving DecidableEq

/-- One configured script: its path, the logical-path writes and
`set_edit_path` calls it performs before terminating, and how it
terminates. -/
structure Script where
  name : String
  writes : List (String × String)
  editPathCalls : List (String × Option String)
deriving DecidableEq

structure ScriptRun where
  script : Script
  outcome : ScriptOutcome
deriving DecidableEq

/-- A script is benign when the `try/except SystemExit` loop continues past
it: it returns normally, or raises `SystemExit` with a falsy code. -/
def benignB (r : ScriptRun) : Bool :=
  match r.outcome with
  | .normal => true
  | .systemExit c => !pyTruthy c
  | .raises _ => false

/-- Python `repr` of a string, faithful for names without quotes,
backslashes or control characters. -/
def pyReprStr (s : String) : String := "'" ++ s ++ "'"

/-- Python `repr` of a `SystemExit` exception. -/
def exitRepr : PyExitCode → String
  | .noneCode => "SystemExit(None)"
  | .intCode n => "SystemExit(" ++ toString n ++ ")"
  | .strCode s => "SystemExit(" ++ pyReprStr s ++ ")"

/-- The `PluginError` message: `f"Script {file_name!r} caused {e!r}"`. -/
def scriptErrMsg (name : String) (c : PyExitCode) : String :=
  "Script " ++ pyReprStr name ++ " caused " ++ exitRepr c

/-! ### The editor dict state (insertion-ordered maps)

Python dict assignment keeps the position of an existing key and appends a
new key at the end; `TouchedPathSet` has the same first-write order.  Both
are association lists with that update rule. -/

/-- Python dict assignment `d[k] = v` on an insertion-ordered association
list. -/
def dictInsert {α : Type} (d : List (String × α)) (k : String) (v : α) :
    List (String × α) :=
  if d.any (fun p => p.1 == k) then
    d.map (fun p => if p.1 == k then (k, v) else p)
  else d ++ [(k, v)]

/-- Python `k in d` followed by `d.pop(k)`: returns `(some value, d without
the first entry for k)` when present, `(none, d)` otherwise. -/
def dictPop : List (String × Option String) → String →
    Option (Option String) × List (String × Option String)
  | [], _ => (none, [])
  | p :: rest, k =>
    if p.1 == k then (some p.2, rest)
    else
      let (v, r) := dictPop rest k
      (v, p :: r)

/-- Python `d.get(k)` / `k in d` on an association list (first match). -/
def dictLookup (d : List (String × Option String)) (k : String) :
    Option (Option String) :=
  (d.find? (fun p => p.1 == k)).map (fun p => p.2)

/-- Accumulated editor state during a run: the touched writes (last content
wins, first-write position) and the `edit_paths` dict. -/
structure EditorSt where
  writes : List (String × String)
  editPaths : List (String × Option String)
deriving DecidableEq

def emptyEd : EditorSt := ⟨[], []⟩

/-- Apply one script's writes and `set_edit_path` calls to the editor
state. -/
def applyScript (st : EditorSt) (r : ScriptRun) : EditorSt :=
  { writes := r.script.writes.foldl (fun w kv => dictInsert w kv.1 kv.2) st.writes,
    editPaths := r.script.editPathCalls.foldl (fun d kv => dictInsert d kv.1 kv.2) st.editPaths }

/-- Result of the script loop in `on_files`. -/
inductive RunResult where
  | ok : RunResult
  | pluginError (msg : String) : RunResult
  | propagated (err : String) : RunResult
deriving DecidableEq

/-- The `for file_name in self.config.scripts` loop with its
`try/except SystemExit` (plugin.py lines 51–56): each script's effects are
applied, a falsy `SystemExit` code continues the loop, a truthy one raises
`PluginError` naming the script, and any other exception propagates
unmodified.  Returns the result together with the editor state at the moment
the loop stops. -/
def runScripts (st : EditorSt) : List ScriptRun → RunResult × EditorSt
  | [] => (.ok, st)
  | r :: rest =>
    let st' := applyScript st r
    match r.outcome with
    | .normal => runScripts st' rest
    | .systemExit c =>
      if pyTruthy c then (.pluginError (scriptErrMsg r.script.name c), st')
      else runScripts st' rest
    | .raises e => (.propagated e, st')

/-! ### Host files, reconciliation and the `edit_uri` workaround -/

/-- A record of the host's `Files` collection: logical source path, content,
and the mkdocs `edit_uri` attribute. -/
structure FileRec where
  srcUri : String
  content : String
  editUri : Option String
deriving DecidableEq

/-- Modelled from the spec: `FileSetReconciler` (the `FilesEditor` lives in
`editor.py`, which is not part of the sources; only its use in `plugin.py`
is).  For each touched logical path in first-write order, a generated file
record replaces an existing entry with the same logical path in place, or is
appended at the end. -/
def reconcile (host : List FileRec) (writes : List (String × String)) : List FileRec :=
  writes.foldl
    (fun fs kv =>
      if fs.any (fun f => f.srcUri == kv.1) then
        fs.map (fun f => if f.srcUri == kv.1 then ⟨kv.1, kv.2, none⟩ else f)
      else fs ++ [⟨kv.1, kv.2, none⟩])
    host

/-- `files.get_file_from_path(k)` followed by `f.edit_uri = p` (unique
`src_uri`s in a mkdocs `Files`, so updating every match is the same file). -/
def setFileEditUri (fs : List FileRec) (k : String) (p : String) : List FileRec :=
  fs.map (fun f => if f.srcUri == k then { f with editUri := some p } else f)

/-- The best-effort `edit_uri_template` workaround loop (plugin.py lines
60–67): for every dict entry whose value is not `None`, set that file's
`edit_uri`. -/
def applyWorkaround (eps : List (String × Option String)) (files : List FileRec) :
    List FileRec :=
  eps.foldl
    (fun fs kv =>
      match kv.2 with
      | none => fs
      | some p => setFileEditUri fs kv.1 p)
    files

/-- The `edit_uri` of the file found at logical path `k` (if any). -/
def getEditUri (fs : List FileRec) (k : String) : Option (Option String) :=
  (fs.find? (fun f => f.srcUri == k)).map (fun f => f.editUri)

/-! ### `on_files` -/

/-- Filesystem side effects of the plugin. -/
inductive FsEffect where
  | makedirs (path : String) : FsEffect
  | mkdtemp (path : String) : FsEffect
  | rmtree (path : String) : FsEffect
deriving DecidableEq

/-- The staging-directory setup (plugin.py lines 38–48).  `if
self.config.directory:` is a Python truthiness test, so `None` and `""` both
take the temporary-directory branch; `tempName` is the fresh unique name
`tempfile.mkdtemp` returns.  Yields `((dir_name, should_cleanup), effects)`. -/
def setupDirectory (directory : Option String) (cleanup : Bool) (tempName : String) :
    (String × Bool) × List FsEffect :=
  if truthyOpt directory then
    let d := directory.getD ""
    ((d, false), [FsEffect.makedirs d])
  else
    ((tempName, cleanup), [FsEffect.mkdtemp tempName])

/-- Everything observable about one `on_files` call. -/
structure OnFilesOut where
  dirName : String
  shouldCleanup : Bool
  fsEffects : List FsEffect
  result : RunResult
  /-- Editor state at `FilesEditor.__exit__`; the `with` statement runs the
  exit on every path, so this is always defined. -/
  editorFinal : EditorSt
  /-- `ed.files` after the exit's reconciliation — also always defined. -/
  reconciled : List FileRec
  /-- `self._edit_paths = dict(ed.edit_paths)`: only reached on success. -/
  savedEditPaths : Option (List (String × Option String))
  /-- The host collection after the workaround loop: only reached on
  success. -/
  workFiles : Option (List FileRec)
  /-- The hook's return value `ed.files`: only produced on success; on an
  exception the hook returns nothing and the build aborts. -/
  returned : Option (List FileRec)
deriving DecidableEq

/-- The whole `on_files` hook (plugin.py lines 37–69). -/
def onFiles (directory : Option String) (cleanup : Bool) (tempName : String)
    (scripts : List ScriptRun) (host : List FileRec) : OnFilesOut :=
  let setup := setupDirectory directory cleanup tempName
  let run := runScripts emptyEd scripts
  let reconciled := reconcile host run.2.writes
  match run.1 with
  | .ok =>
    { dirName := setup.1.1, shouldCleanup := setup.1.2, fsEffects := setup.2,
      result := .ok, editorFinal := run.2, reconciled := reconciled,
      savedEditPaths := some run.2.editPaths,
      workFiles := some (applyWorkaround run.2.editPaths host),
      returned := some reconciled }
  | res =>
    { dirName := setup.1.1, shouldCleanup := setup.1.2, fsEffects := setup.2,
      result := res, editorFinal := run.2, reconciled := reconciled,
      savedEditPaths := none, workFiles := none, returned := none }

/-! ### `on_page_content` -/

/-- The slice of a mkdocs `Page` the hook touches. -/
structure Page where
  srcUri : String
  editUrl : Option String
deriving DecidableEq

/-- `if not edit_uri.startswith(("?", "#")) and not repo_url.endswith("/"):
repo_url += "/"` (plugin.py lines 79–81). -/
def adjustRepoUrl (repoUrl editUri : String) : String :=
  if !(editUri.data.head? == some '?' || editUri.data.head? == some '#')
      && !(repoUrl.data.getLast? == some '/') then
    repoUrl ++ "/"
  else repoUrl

/-- `page.edit_url = path and urljoin(urljoin(repo_url, edit_uri), path)`:
`None` stays `None`, an empty string stays empty, otherwise the double
`urljoin`. -/
def computeEditUrl (repoUrl editUri : String) (path : Option String) : Option String :=
  match path with
  | none => none
  | some p => if p = "" then some "" else some (urljoin (urljoin repoUrl editUri) p)

/-- Observable output of `on_page_content`. -/
structure PCOut where
  html : String
  page : Page
  eps : List (String × Option String)
deriving DecidableEq

/-- The `on_page_content` hook (plugin.py lines 71–87).  `repoUrl`/`editUri`
are `config.repo_url` / `config.edit_uri` (optional strings, tested for
truthiness); `eps` is `self._edit_paths`. -/
def onPageContent (repoUrl editUri : Option String) (html : String) (page : Page)
    (eps : List (String × Option String)) : PCOut :=
  let popped := dictPop eps page.srcUri
  match popped.1 with
  | none => ⟨html, page, eps⟩
  | some path =>
    if truthyOpt repoUrl && truthyOpt editUri then
      let ru := adjustRepoUrl (repoUrl.getD "") (editUri.getD "")
      ⟨html, { page with editUrl := computeEditUrl ru (editUri.getD "") path }, popped.2⟩
    else ⟨html, page, popped.2⟩

/-! ### `on_post_build` -/

/-- `unused_edit_paths = {k: str(v) for k, v in self._edit_paths.items() if v}`:
Python truthiness keeps only non-`None`, nonempty values (`str` on a string
is the identity). -/
def unusedEditPaths (eps : List (String × Option String)) : List (String × String) :=
  eps.filterMap
    (fun kv =>
      match kv.2 with
      | none => none
      | some v => if v = "" then none else some (kv.1, v))

/-- What `shutil.rmtree(self._dir_name, ignore_errors=True)` does as a call:
the oracle is `some e` when the call itself raises an exception `e` (for any
reason not swallowed by `ignore_errors`), `none` when it returns. -/
def rmtreeRun (oracle : Option String) : Except String Unit :=
  match oracle with
  | some e => Except.error e
  | none => Except.ok ()

/-- `try: ... except Exception: pass` around a statement. -/
def tryExceptPass (r : Except String Unit) : Except String Unit :=
  match r with
  | Except.ok _ => Except.ok ()
  | Except.error _ => Except.ok ()

/-- Observable output of `on_post_build`: the filesystem effects, the
exception (if any) propagating out of the hook, and the payload of each
`log.warning` event emitted. -/
structure PostBuildOut where
  effects : List FsEffect
  error : Option String
  warnings : List (List (String × String))
deriving DecidableEq

/-- The `on_post_build` hook (plugin.py lines 89–100). -/
def onPostBuild (shouldCleanup : Bool) (dirName : String) (rmtreeOracle : Option String)
    (eps : List (String × Option String)) : PostBuildOut :=
  let cleanup :=
    if shouldCleanup then
      ([FsEffect.rmtree dirName], tryExceptPass (rmtreeRun rmtreeOracle))
    else ([], Except.ok ())
  match cleanup.2 with
  | Except.error e => { effects := cleanup.1, error := some e, warnings := [] }
  | Except.ok _ =>
    let unused := unusedEditPaths eps
    { effects := cleanup.1, error := none,
      warnings := if unused.isEmpty then [] else [unused] }

/-! ### Helper lemmas -/

theorem string_data_append (a b : String) : (a ++ b).data = a.data ++ b.data := rfl

/-- The value `dictPop` returns is the dict lookup. -/
theorem dictPop_fst (eps : List (String × Option String)) (k : String) :
    (dictPop eps k).1 = dictLookup eps k := by
  induction eps with
  | nil => rfl
  | cons p rest ih =>
    simp only [dictPop, dictLookup, List.find?_cons]
    cases hpk : (p.1 == k) with
    | true => simp
    | false => simpa [dictLookup] using ih

/-- A key absent from the key list is not found. -/
theorem dictLookup_eq_none_of_not_mem (l : List (String × Option String)) (k : String)
    (h : k ∉ l.map Prod.fst) : dictLookup l k = none := by
  unfold dictLookup
  rw [Option.map_eq_none', List.find?_eq_none]
  intro x hx hbeq
  exact h (List.mem_map.mpr ⟨x, hx, beq_iff_eq.mp hbeq⟩)

/-- With unique keys, popping a key removes it from the dict. -/
theorem dictLookup_pop_self (eps : List (String × Option String)) (k : String)
    (hnd : (eps.map Prod.fst).Nodup) : dictLookup (dictPop eps k).2 k = none := by
  induction eps with
  | nil => rfl
  | cons p rest ih =>
    simp only [List.map_cons, List.nodup_cons] at hnd
    simp only [dictPop]
    cases hpk : (p.1 == k) with
    | true =>
      simp only [if_pos rfl]
      exact dictLookup_eq_none_of_not_mem rest k (beq_iff_eq.mp hpk ▸ hnd.1)
    | false =>
      simp only [Bool.false_eq_true, if_false, dictLookup, List.find?_cons, hpk]
      exact ih hnd.2

/-- Each element of `unusedEditPaths` comes from an entry with the same key. -/
theorem unusedEditPaths_key_mem (l : List (String × Option String))
    (q : String × String) (hq : q ∈ unusedEditPaths l) : q.1 ∈ l.map Prod.fst := by
  unfold unusedEditPaths at hq
  rcases List.mem_filterMap.mp hq with ⟨kv, hkv, hfn⟩
  refine List.mem_map.mpr ⟨kv, hkv, ?_⟩
  rcases kv with ⟨k1, v2⟩
  cases v2 with
  | none => simp at hfn
  | some v =>
    change (if v = "" then none else some (k1, v)) = some q at hfn
    by_cases he : v = ""
    · rw [if_pos he] at hfn; cases hfn
    · rw [if_neg he] at hfn
      have hkq : (k1, v) = q := Option.some.inj hfn
      rw [← hkq]

/-- A lookup that yields `none` or the value `none` forces, under unique
keys, every entry at that key to carry `none`. -/
theorem entries_none_of_lookup (eps : List (String × Option String)) (P : String)
    (hnd : (eps.map Prod.fst).Nodup)
    (hP : dictLookup eps P = some none ∨ dictLookup eps P = none) :
    ∀ kv ∈ eps, kv.1 = P → kv.2 = none := by
  induction eps with
  | nil => intro kv h; cases h
  | cons hd rest ih =>
    simp only [List.map_cons, List.nodup_cons] at hnd
    intro kv hkv hkvP
    cases hlk : (hd.1 == P) with
    | true =>
      have hhd : hd.2 = none := by
        rcases hP with hP | hP
        · simp only [dictLookup, List.find?_cons, hlk] at hP
          simpa using hP
        · simp only [dictLookup, List.find?_cons, hlk] at hP
          simp at hP
      rcases List.mem_cons.mp hkv with h | h
      · rw [h]; exact hhd
      · exfalso
        apply hnd.1
        rw [beq_iff_eq.mp hlk]
        exact List.mem_map.mpr ⟨kv, h, hkvP⟩
    | false =>
      have hP' : dictLookup rest P = some none ∨ dictLookup rest P = none := by
        rcases hP with hP | hP
        · left; simpa only [dictLookup, List.find?_cons, hlk] using hP
        · right; simpa only [dictLookup, List.find?_cons, hlk] using hP
      rcases List.mem_cons.mp hkv with h | h
      · exfalso
        rw [h] at hkvP
        rw [hkvP] at hlk
        simp at hlk
      · exact ih hnd.2 hP' kv h hkvP

/-- Lookup at `P` is unchanged by mapping a function over the files that
preserves `srcUri` everywhere and preserves `editUri` at the files whose
`srcUri` is `P`. -/
theorem getEditUri_map_preserve (g : FileRec → FileRec) (fs : List FileRec) (P : String)
    (hsrc : ∀ f, (g f).srcUri = f.srcUri)
    (hP : ∀ f, f.srcUri = P → (g f).editUri = f.editUri) :
    getEditUri (fs.map g) P = getEditUri fs P := by
  induction fs with
  | nil => rfl
  | cons f rest ih =>
    unfold getEditUri
    rw [List.map_cons, List.find?_cons, List.find?_cons]
    have hsame : ((g f).srcUri == P) = (f.srcUri == P) := by rw [hsrc]
    rw [hsame]
    cases hfP : (f.srcUri == P) with
    | true => simp [hP f (beq_iff_eq.mp hfP)]
    | false => simpa [getEditUri] using ih

/-- Setting a different key's `edit_uri` does not change the file found at
`P`. -/
theorem getEditUri_set_ne (fs : List FileRec) (k P : String) (p : String)
    (hk : k ≠ P) : getEditUri (setFileEditUri fs k p) P = getEditUri fs P := by
  unfold setFileEditUri
  refine getEditUri_map_preserve _ fs P (fun f => ?_) (fun f hf => ?_)
  · by_cases h : f.srcUri = k <;> simp [h]
  · have : (f.srcUri == k) = false := by
      rw [hf]
      exact beq_eq_false_iff_ne.mpr (fun he => hk he.symm)
    simp [this]

/-- The workaround loop never touches the file at `P` when every entry for
`P` holds `None`. -/
theorem applyWorkaround_preserves (eps : List (String × Option String))
    (files : List FileRec) (P : String)
    (h : ∀ kv ∈ eps, kv.1 = P → kv.2 = none) :
    getEditUri (applyWorkaround eps files) P = getEditUri files P := by
  induction eps generalizing files with
  | nil => rfl
  | cons kv rest ih =>
    have hstep : applyWorkaround (kv :: rest) files =
        applyWorkaround rest
          (match kv.2 with | none => files | some p => setFileEditUri files kv.1 p) := by
      simp only [applyWorkaround, List.foldl_cons]
    rw [hstep]
    cases hv : kv.2 with
    | none => exact ih files (fun q hq => h q (List.mem_cons_of_mem _ hq))
    | some p =>
      have hk : kv.1 ≠ P := by
        intro he
        have := h kv (List.mem_cons_self _ _) he
        rw [hv] at this
        cases this
      rw [ih _ (fun q hq => h q (List.mem_cons_of_mem _ hq))]
      exact getEditUri_set_ne files kv.1 P p hk

/-- An empty `unusedEditPaths` means every entry is falsy, and conversely. -/
theorem unusedEditPaths_eq_nil_iff (eps : List (String × Option String)) :
    unusedEditPaths eps = [] ↔ ∀ kv ∈ eps, truthyOpt kv.2 = false := by
  unfold unusedEditPaths
  rw [List.filterMap_eq_nil_iff]
  constructor
  · intro h kv hkv
    have h' := h kv hkv
    rcases kv with ⟨k1, v2⟩
    cases v2 with
    | none => rfl
    | some v =>
      change (if v = "" then none else some (k1, v)) = none at h'
      by_cases he : v = ""
      · simp [truthyOpt, truthyStr, he]
      · rw [if_neg he] at h'; cases h'
  · intro h kv hkv
    have h' := h kv hkv
    rcases kv with ⟨k1, v2⟩
    cases v2 with
    | none => rfl
    | some v =>
      change truthyOpt (some v) = false at h'
      have he : v = "" := by
        by_contra he
        simp [truthyOpt, truthyStr, he] at h'
      change (if v = "" then none else some (k1, v)) = none
      rw [if_pos he]

/-! ### Claim theorems -/

/-- C9: for every `on_page_content` invocation, the returned HTML is exactly
the HTML that was passed in — the hook never alters rendered content. -/
theorem c9_html_unchanged (repoUrl editUri : Option String) (html : String)
    (page : Page) (eps : List (String × Option String)) :
    (onPageContent repoUrl editUri html page eps).html = html := by
  simp only [onPageContent]
  split
  · rfl
  · split <;> rfl

/-- C7: when `repo_url` or `edit_uri` is missing (falsy), edit-link
computation is silently skipped — the hook is total (no error can be raised
in the embedding) and the page, in particular its `edit_url`, is returned
unmodified, as is the HTML. -/
theorem c7_missing_config_skips (repoUrl editUri : Option String) (html : String)
    (page : Page) (eps : List (String × Option String))
    (h : truthyOpt repoUrl = false ∨ truthyOpt editUri = false) :
    (onPageContent repoUrl editUri html page eps).page = page ∧
    (onPageContent repoUrl editUri html page eps).html = html := by
  have hb : (truthyOpt repoUrl && truthyOpt editUri) = false := by
    rcases h with h | h <;> simp [h]
  simp only [onPageContent, hb, Bool.false_eq_true, if_false]
  split <;> exact ⟨rfl, rfl⟩

/-- C7 witness: a concrete page with a pending edit path but no `repo_url`
is passed through untouched. -/
theorem c7_missing_config_skips_witness :
    (onPageContent none (some "edit/main/") "<p>x</p>" ⟨"x.md", none⟩
        [("x.md", some "docs/x.md")]).page = ⟨"x.md", none⟩ ∧
    (onPageContent none (some "edit/main/") "<p>x</p>" ⟨"x.md", none⟩
        [("x.md", some "docs/x.md")]).html = "<p>x</p>" :=
  c7_missing_config_skips none (some "edit/main/") "<p>x</p>" ⟨"x.md", none⟩
    [("x.md", some "docs/x.md")] (Or.inl (by decide))

/-- C8: any error the staging-directory removal raises at post-build is
fully suppressed — the hook never propagates an exception, and neither the
warnings nor the filesystem effects depend on whether the removal failed. -/
theorem c8_cleanup_errors_suppressed (sc : Bool) (dn : String) (orc : Option String)
    (eps : List (String × Option String)) :
    (onPostBuild sc dn orc eps).error = none ∧
    (onPostBuild sc dn orc eps).warnings = (onPostBuild sc dn none eps).warnings ∧
    (onPostBuild sc dn orc eps).effects = (onPostBuild sc dn none eps).effects := by
  cases sc <;> cases orc <;>
    simp [onPostBuild, tryExceptPass, rmtreeRun]

/-- C4: when `directory` is set (to a non-empty string, Python truthiness),
it is created with `makedirs`, `should_cleanup` is `False` whatever the
`cleanup` option says, and post-build removes nothing; when `directory` is
unset, the fresh `mkdtemp` directory is used and post-build removes it if
and only if `cleanup` is enabled. -/
theorem c4_directory_option (cleanup : Bool) (t : String) (orc : Option String)
    (eps : List (String × Option String)) :
    (∀ d : String, d ≠ "" →
      setupDirectory (some d) cleanup t = ((d, false), [FsEffect.makedirs d]) ∧
      (onPostBuild (setupDirectory (some d) cleanup t).1.2
        (setupDirectory (some d) cleanup t).1.1 orc eps).effects = []) ∧
    (setupDirectory none cleanup t = ((t, cleanup), [FsEffect.mkdtemp t]) ∧
      (FsEffect.rmtree t ∈ (onPostBuild (setupDirectory none cleanup t).1.2
        (setupDirectory none cleanup t).1.1 orc eps).effects ↔ cleanup = true)) := by
  constructor
  · intro d hd
    have hset : setupDirectory (some d) cleanup t = ((d, false), [FsEffect.makedirs d]) := by
      simp [setupDirectory, truthyOpt, truthyStr, hd]
    refine ⟨hset, ?_⟩
    rw [hset]
    cases orc <;> simp [onPostBuild]
  · have hset : setupDirectory none cleanup t = ((t, cleanup), [FsEffect.mkdtemp t]) := by
      simp [setupDirectory, truthyOpt]
    refine ⟨hset, ?_⟩
    rw [hset]
    cases cleanup <;> cases orc <;>
      simp [onPostBuild, tryExceptPass, rmtreeRun]

/-- C4 witness: with `directory = "gen"` nothing is removed at post-build
even though `cleanup = true`; without `directory` the temp dir is removed. -/
theorem c4_directory_option_witness :
    (setupDirectory (some "gen") true "/tmp/g1" = (("gen", false), [FsEffect.makedirs "gen"]) ∧
      (onPostBuild (setupDirectory (some "gen") true "/tmp/g1").1.2
        (setupDirectory (some "gen") true "/tmp/g1").1.1 none []).effects = []) ∧
    (setupDirectory none true "/tmp/g1" = (("/tmp/g1", true), [FsEffect.mkdtemp "/tmp/g1"]) ∧
      (FsEffect.rmtree "/tmp/g1" ∈ (onPostBuild (setupDirectory none true "/tmp/g1").1.2
        (setupDirectory none true "/tmp/g1").1.1 none []).effects ↔ true = true)) :=
  ⟨(c4_directory_option true "/tmp/g1" none []).1 "gen" (by decide),
   (c4_directory_option true "/tmp/g1" none []).2⟩

/-- C3 counterexample: the entry `("a.md", some "")` holds a non-null value
and is never consumed, yet `on_post_build` emits no warning event at all,
because the dict comprehension `if v` uses Python truthiness and discards
the empty string.  The claim, which promises a warning for every non-null
unconsumed value, is therefore false on the code. -/
theorem c3_counterexample :
    (∃ kv ∈ [("a.md", (some "" : Option String))], kv.2 ≠ none) ∧
    (onPostBuild false "d" none [("a.md", some "")]).warnings = [] := by decide

/-- C3 (amended): the post-build hook never fails; if no unconsumed entry is
truthy (non-null and non-empty) it emits no warning; if some entry is
truthy it emits exactly one aggregated warning event listing all truthy
unconsumed entries. -/
theorem c3_unused_warning_amended (sc : Bool) (dn : String) (orc : Option String)
    (eps : List (String × Option String)) :
    (onPostBuild sc dn orc eps).error = none ∧
    ((∀ kv ∈ eps, truthyOpt kv.2 = false) → (onPostBuild sc dn orc eps).warnings = []) ∧
    ((∃ kv ∈ eps, truthyOpt kv.2 = true) →
      (onPostBuild sc dn orc eps).warnings = [unusedEditPaths eps] ∧
      ∀ kv ∈ eps, truthyOpt kv.2 = true →
        (kv.1, kv.2.getD "") ∈ unusedEditPaths eps) := by
  have herr : (onPostBuild sc dn orc eps).error = none ∧
      (onPostBuild sc dn orc eps).warnings =
        (if (unusedEditPaths eps).isEmpty then [] else [unusedEditPaths eps]) := by
    cases sc <;> cases orc <;> simp [onPostBuild, tryExceptPass, rmtreeRun]
  refine ⟨herr.1, ?_, ?_⟩
  · intro h
    rw [herr.2, if_pos]
    rw [List.isEmpty_iff]
    exact (unusedEditPaths_eq_nil_iff eps).mpr h
  · intro h
    have hne : ¬ (unusedEditPaths eps).isEmpty = true := by
      rw [List.isEmpty_iff]
      intro hnil
      rcases h with ⟨kv, hkv, htr⟩
      have := (unusedEditPaths_eq_nil_iff eps).mp hnil kv hkv
      rw [htr] at this
      cases this
    refine ⟨by rw [herr.2, if_neg hne], ?_⟩
    intro kv hkv htr
    rcases kv with ⟨k1, v2⟩
    cases v2 with
    | none => change truthyOpt none = true at htr; cases htr
    | some v =>
      change truthyOpt (some v) = true at htr
      have hv' : v ≠ "" := by
        intro he
        rw [he] at htr
        simp [truthyOpt, truthyStr] at htr
      refine List.mem_filterMap.mpr ⟨(k1, some v), hkv, ?_⟩
      change (if v = "" then none else some (k1, v)) = some (k1, (some v).getD "")
      rw [if_neg hv']
      rfl

/-- C3 amended witness: one truthy and one null entry yield exactly one
aggregated warning listing the truthy one, and no error. -/
theorem c3_unused_warning_amended_witness :
    (onPostBuild true "/tmp/g2" (some "boom") [("a.md", some "x.md"), ("b.md", none)]).error
        = none ∧
    (onPostBuild true "/tmp/g2" (some "boom") [("a.md", some "x.md"), ("b.md", none)]).warnings
        = [unusedEditPaths [("a.md", some "x.md"), ("b.md", none)]] ∧
    ("a.md", "x.md") ∈ unusedEditPaths [("a.md", some "x.md"), ("b.md", none)] := by
  have h := c3_unused_warning_amended true "/tmp/g2" (some "boom")
    [("a.md", some "x.md"), ("b.md", none)]
  have h3 := h.2.2 ⟨("a.md", some "x.md"), by decide, by decide⟩
  exact ⟨h.1, h3.1, h3.2 ("a.md", some "x.md") (by decide) (by decide)⟩

/-- C2 counterexample: with both `repo_url` and `edit_uri` configured and a
pending non-null empty-string edit path, `page.edit_url = path and
urljoin(urljoin(repo_url, edit_uri), path)` short-circuits on the falsy
`""` and stores the empty string, whereas the URL-join of the three parts
(`urljoin(base, "")` returns the base) is the resolved
`https://example.com/repo/edit/main/`.  The claim as stated — every pending
non-null entry gets the join — is therefore false at this input. -/
theorem c2_counterexample :
    (onPageContent (some "https://example.com/repo") (some "edit/main/") "<p>c</p>"
        ⟨"x.md", none⟩ [("x.md", some "")]).page.editUrl = some "" ∧
    urljoin (urljoin (adjustRepoUrl "https://example.com/repo" "edit/main/") "edit/main/") ""
      = "https://example.com/repo/edit/main/" ∧
    (some "" : Option String) ≠ some "https://example.com/repo/edit/main/" := by
  refine ⟨by decide, by decide, by decide⟩

/-- C2 (amended): when both `repo_url` and `edit_uri` are configured (truthy) and the
rendered page's logical path has a pending non-null, non-empty edit path,
the stored edit URL is exactly the double `urljoin` of the adjusted repo
URL, the edit-URI template and the popped path; the adjustment appends a
single separating slash to the repo URL when the template does not start
with `?` or `#` and the repo URL does not already end in one.  On the
spec's example the adjustment yields `https://example.com/repo/` and the
standard relative-URL resolution of the three parts yields
`https://example.com/repo/edit/main/docs/x.md`. -/
theorem c2_edit_url_join (repo edit p : String) (html : String) (page : Page)
    (eps : List (String × Option String))
    (hrepo : repo ≠ "") (hedit : edit ≠ "") (hp : p ≠ "")
    (hfound : (dictPop eps page.srcUri).1 = some (some p)) :
    (onPageContent (some repo) (some edit) html page eps).page.editUrl =
      some (urljoin (urljoin (adjustRepoUrl repo edit) edit) p) ∧
    adjustRepoUrl "https://example.com/repo" "edit/main/" = "https://example.com/repo/" ∧
    urljoin (urljoin "https://example.com/repo/" "edit/main/") "docs/x.md" =
      "https://example.com/repo/edit/main/docs/x.md" := by
  refine ⟨?_, by decide, by decide⟩
  have hb : (truthyOpt (some repo) && truthyOpt (some edit)) = true := by
    simp [truthyOpt, truthyStr, hrepo, hedit]
  simp only [onPageContent, hfound, hb, if_true, Option.getD_some]
  simp [computeEditUrl, hp]

/-- C2 witness: the spec's example run end to end through the hook. -/
theorem c2_edit_url_join_witness :
    (onPageContent (some "https://example.com/repo") (some "edit/main/") "<h1>t</h1>"
        ⟨"x.md", none⟩ [("x.md", some "docs/x.md")]).page.editUrl =
      some "https://example.com/repo/edit/main/docs/x.md" := by
  have h := c2_edit_url_join "https://example.com/repo" "edit/main/" "docs/x.md"
    "<h1>t</h1>" ⟨"x.md", none⟩ [("x.md", some "docs/x.md")]
    (by decide) (by decide) (by decide) (by decide)
  rw [h.1]
  decide

/-- C6: if `set_edit_path` stored `None` for logical path `P`, or was never
called for `P`, no edit URL is ever computed or attached for `P`: the
page-content hook leaves the page's `edit_url` as it was or clears it to
`None`, and the `edit_uri` workaround loop in `on_files` leaves the file at
`P` untouched. -/
theorem c6_no_edit_url_when_none (repoUrl editUri : Option String) (html : String)
    (page : Page) (eps : List (String × Option String)) (files : List FileRec)
    (P : String) (hnd : (eps.map Prod.fst).Nodup)
    (hP : dictLookup eps P = some none ∨ dictLookup eps P = none) :
    (page.srcUri = P →
      (onPageContent repoUrl editUri html page eps).page.editUrl = none ∨
      (onPageContent repoUrl editUri html page eps).page.editUrl = page.editUrl) ∧
    getEditUri (applyWorkaround eps files) P = getEditUri files P := by
  constructor
  · intro hsrc
    subst hsrc
    rcases hP with hP | hP
    · have hpop : (dictPop eps page.srcUri).1 = some none := by
        rw [dictPop_fst]; exact hP
      simp only [onPageContent, hpop]
      cases hb : (truthyOpt repoUrl && truthyOpt editUri) with
      | true => left; simp [computeEditUrl]
      | false => right; simp
    · have hpop : (dictPop eps page.srcUri).1 = none := by
        rw [dictPop_fst]; exact hP
      right
      simp [onPageContent, hpop]
  · exact applyWorkaround_preserves eps files P (entries_none_of_lookup eps P hnd hP)

/-- C6 witness: a `None` registration leaves both the page and the file
record without any computed edit URL. -/
theorem c6_no_edit_url_when_none_witness :
    ((onPageContent (some "https://example.com/repo") (some "edit/main/") "<p>a</p>"
        ⟨"p.md", some "u"⟩ [("p.md", none)]).page.editUrl = none ∨
      (onPageContent (some "https://example.com/repo") (some "edit/main/") "<p>a</p>"
        ⟨"p.md", some "u"⟩ [("p.md", none)]).page.editUrl = some "u") ∧
    getEditUri (applyWorkaround [("p.md", none)] [⟨"p.md", "c", some "orig"⟩]) "p.md" =
      getEditUri [⟨"p.md", "c", some "orig"⟩] "p.md" := by
  have h := c6_no_edit_url_when_none (some "https://example.com/repo") (some "edit/main/")
    "<p>a</p>" ⟨"p.md", some "u"⟩ [("p.md", none)] [⟨"p.md", "c", some "orig"⟩] "p.md"
    (by decide) (Or.inl (by decide))
  exact ⟨h.1 rfl, h.2⟩

/-- C10: when the rendered page's logical path is present in the edit-path
dict, the entry is popped before the `repo_url`/`edit_uri` check — whatever
the configuration, the resulting dict is the popped one, the key is gone
from it, and consequently the key can never appear in the post-build
unused-edit-paths warning. -/
theorem c10_pop_before_config (repoUrl editUri : Option String) (html : String)
    (page : Page) (eps : List (String × Option String))
    (hnd : (eps.map Prod.fst).Nodup)
    (hmem : dictLookup eps page.srcUri ≠ none) :
    (onPageContent repoUrl editUri html page eps).eps = (dictPop eps page.srcUri).2 ∧
    dictLookup (onPageContent repoUrl editUri html page eps).eps page.srcUri = none ∧
    ∀ q ∈ unusedEditPaths (onPageContent repoUrl editUri html page eps).eps,
      q.1 ≠ page.srcUri := by
  rcases hv : dictLookup eps page.srcUri with _ | v
  · exact absurd hv hmem
  have hpop : (dictPop eps page.srcUri).1 = some v := by
    rw [dictPop_fst]; exact hv
  have heps : (onPageContent repoUrl editUri html page eps).eps =
      (dictPop eps page.srcUri).2 := by
    simp only [onPageContent, hpop]
    cases hb : (truthyOpt repoUrl && truthyOpt editUri) with
    | true => simp
    | false => simp
  refine ⟨heps, ?_, ?_⟩
  · rw [heps]
    exact dictLookup_pop_self eps page.srcUri hnd
  · intro q hq hq1
    rw [heps] at hq
    have hkey := unusedEditPaths_key_mem _ q hq
    rw [hq1] at hkey
    have := dictLookup_eq_none_of_not_mem ((dictPop eps page.srcUri).2) page.srcUri
    have hnone := dictLookup_pop_self eps page.srcUri hnd
    rcases List.mem_map.mp hkey with ⟨kv, hkv, hkveq⟩
    have hfind := List.find?_eq_none.mp (by
      have := hnone
      unfold dictLookup at this
      exact Option.map_eq_none'.mp this) kv hkv
    rw [hkveq] at hfind
    simp at hfind

/-- C10 witness: with missing configuration the entry is still consumed and
absent from the unused warning set. -/
theorem c10_pop_before_config_witness :
    (onPageContent none none "<p>b</p>" ⟨"q.md", none⟩
        [("q.md", some "src/q.md"), ("r.md", some "src/r.md")]).eps =
      (dictPop [("q.md", some "src/q.md"), ("r.md", some "src/r.md")] "q.md").2 ∧
    dictLookup (onPageContent none none "<p>b</p>" ⟨"q.md", none⟩
        [("q.md", some "src/q.md"), ("r.md", some "src/r.md")]).eps "q.md" = none ∧
    ∀ q ∈ unusedEditPaths (onPageContent none none "<p>b</p>" ⟨"q.md", none⟩
        [("q.md", some "src/q.md"), ("r.md", some "src/r.md")]).eps,
      q.1 ≠ "q.md" :=
  c10_pop_before_config none none "<p>b</p>" ⟨"q.md", none⟩
    [("q.md", some "src/q.md"), ("r.md", some "src/r.md")] (by decide) (by decide)

/-- Benign scripts (normal return or falsy `SystemExit`) let the loop
continue: running `pre ++ rest` first applies all of `pre`'s effects. -/
theorem runScripts_benign_append (st : EditorSt) (pre rest : List ScriptRun)
    (hpre : ∀ p ∈ pre, benignB p = true) :
    runScripts st (pre ++ rest) = runScripts (pre.foldl applyScript st) rest := by
  induction pre generalizing st with
  | nil => rfl
  | cons r pre ih =>
    have hr := hpre r (List.mem_cons_self _ _)
    rw [List.cons_append, List.foldl_cons]
    cases ho : r.outcome with
    | normal =>
      simp only [runScripts, ho]
      exact ih (applyScript st r) (fun q hq => hpre q (List.mem_cons_of_mem _ hq))
    | systemExit c =>
      have hc : pyTruthy c = false := by
        unfold benignB at hr
        rw [ho] at hr
        simpa using hr
      simp only [runScripts, ho, hc, Bool.false_eq_true, if_false]
      exact ih (applyScript st r) (fun q hq => hpre q (List.mem_cons_of_mem _ hq))
    | raises e =>
      exfalso
      unfold benignB at hr
      rw [ho] at hr
      cases hr

/-- A run of only benign scripts succeeds and accumulates every script's
writes and edit-path calls. -/
theorem runScripts_benign_all (st : EditorSt) (l : List ScriptRun)
    (h : ∀ p ∈ l, benignB p = true) :
    runScripts st l = (RunResult.ok, l.foldl applyScript st) := by
  have happ := runScripts_benign_append st l [] h
  rw [List.append_nil] at happ
  rw [happ]
  rfl

/-- C1: a script that raises `SystemExit` with a falsy code (or returns
normally) lets the run continue — an all-benign script list makes
`on_files` succeed and return the reconciliation of every script's writes —
while a truthy `SystemExit` code after a benign prefix makes the hook raise
`PluginError` with a message that contains the offending script's name. -/
theorem c1_script_exit_handling (directory : Option String) (cleanup : Bool)
    (tempName : String) (host : List FileRec) (scripts : List ScriptRun) :
    ((∀ r ∈ scripts, benignB r = true) →
      (onFiles directory cleanup tempName scripts host).result = RunResult.ok ∧
      (onFiles directory cleanup tempName scripts host).returned =
        some (reconcile host (scripts.foldl applyScript emptyEd).writes)) ∧
    (∀ pre r rest c, scripts = pre ++ r :: rest →
      (∀ p ∈ pre, benignB p = true) →
      r.outcome = ScriptOutcome.systemExit c → pyTruthy c = true →
      (onFiles directory cleanup tempName scripts host).result =
        RunResult.pluginError (scriptErrMsg r.script.name c) ∧
      ∃ s t, s ++ r.script.name.data ++ t = (scriptErrMsg r.script.name c).data) := by
  constructor
  · intro hall
    have hrun := runScripts_benign_all emptyEd scripts hall
    constructor <;> simp [onFiles, hrun]
  · intro pre r rest c hsp hpre ho hc
    subst hsp
    have hrun : runScripts emptyEd (pre ++ r :: rest) =
        (RunResult.pluginError (scriptErrMsg r.script.name c),
          applyScript (pre.foldl applyScript emptyEd) r) := by
      rw [runScripts_benign_append emptyEd pre (r :: rest) hpre]
      simp only [runScripts, ho, hc, if_true]
    constructor
    · simp [onFiles, hrun]
    · refine ⟨("Script " ++ "'").data, ("'" ++ (" caused " ++ exitRepr c)).data, ?_⟩
      simp only [scriptErrMsg, pyReprStr, string_data_append, List.append_assoc]

/-- C1 witness: a falsy `SystemExit` script still has its write reconciled
and the run succeeds; a `SystemExit(2)` script aborts with the
`PluginError` message naming it. -/
theorem c1_script_exit_handling_witness :
    (onFiles none true "/tmp/g4"
        [⟨⟨"s.py", [("a.md", "hi")], []⟩, .systemExit .noneCode⟩] []).result =
      RunResult.ok ∧
    (onFiles none true "/tmp/g4"
        [⟨⟨"s.py", [("a.md", "hi")], []⟩, .systemExit .noneCode⟩] []).returned =
      some [⟨"a.md", "hi", none⟩] ∧
    (onFiles none true "/tmp/g4"
        [⟨⟨"t.py", [], []⟩, .systemExit (.intCode 2)⟩] []).result =
      RunResult.pluginError "Script 't.py' caused SystemExit(2)" := by
  have h1 := (c1_script_exit_handling none true "/tmp/g4" []
    [⟨⟨"s.py", [("a.md", "hi")], []⟩, .systemExit .noneCode⟩]).1 (by decide)
  have h2 := (c1_script_exit_handling none true "/tmp/g4" []
    [⟨⟨"t.py", [], []⟩, .systemExit (.intCode 2)⟩]).2 []
    ⟨⟨"t.py", [], []⟩, .systemExit (.intCode 2)⟩ [] (.intCode 2) rfl
    (by intro p hp; cases hp) rfl rfl
  refine ⟨h1.1, ?_, ?_⟩
  · rw [h1.2]; decide
  · rw [h2.1]; decide

/-- C5: any uncaught script error other than `SystemExit` propagates out of
`on_files` unmodified (no wrapping), the hook returns nothing (the build
aborts), and the editor exit still runs: the writes accumulated up to and
including the failing script are reconciled on that failure path. -/
theorem c5_uncaught_propagates (directory : Option String) (cleanup : Bool)
    (tempName : String) (host : List FileRec) (pre : List ScriptRun) (r : ScriptRun)
    (rest : List ScriptRun) (e : String)
    (hpre : ∀ p ∈ pre, benignB p = true) (hr : r.outcome = ScriptOutcome.raises e) :
    (onFiles directory cleanup tempName (pre ++ r :: rest) host).result =
      RunResult.propagated e ∧
    (onFiles directory cleanup tempName (pre ++ r :: rest) host).returned = none ∧
    (onFiles directory cleanup tempName (pre ++ r :: rest) host).reconciled =
      reconcile host (applyScript (pre.foldl applyScript emptyEd) r).writes := by
  have hrun : runScripts emptyEd (pre ++ r :: rest) =
      (RunResult.propagated e, applyScript (pre.foldl applyScript emptyEd) r) := by
    rw [runScripts_benign_append emptyEd pre (r :: rest) hpre]
    simp only [runScripts, hr]
  refine ⟨?_, ?_, ?_⟩ <;> simp [onFiles, hrun]

/-- C5 witness: a `ValueError`-style failure in the first script propagates
as is, nothing is returned, and the write the script made before failing is
still reconciled — while the never-executed second script's write is not. -/
theorem c5_uncaught_propagates_witness :
    (onFiles none true "/tmp/g5"
        [⟨⟨"s.py", [("a.md", "hi")], []⟩, .raises "ValueError"⟩,
          ⟨⟨"u.py", [("b.md", "z")], []⟩, .normal⟩] []).result =
      RunResult.propagated "ValueError" ∧
    (onFiles none true "/tmp/g5"
        [⟨⟨"s.py", [("a.md", "hi")], []⟩, .raises "ValueError"⟩,
          ⟨⟨"u.py", [("b.md", "z")], []⟩, .normal⟩] []).returned = none ∧
    (onFiles none true "/tmp/g5"
        [⟨⟨"s.py", [("a.md", "hi")], []⟩, .raises "ValueError"⟩,
          ⟨⟨"u.py", [("b.md", "z")], []⟩, .normal⟩] []).reconciled =
      [⟨"a.md", "hi", none⟩] := by
  have h := c5_uncaught_propagates none true "/tmp/g5" [] []
    ⟨⟨"s.py", [("a.md", "hi")], []⟩, .raises "ValueError"⟩
    [⟨⟨"u.py", [("b.md", "z")], []⟩, .normal⟩] "ValueError"
    (by intro p hp; cases hp) rfl
  simp only [List.nil_append] at h
  refine ⟨h.1, h.2.1, ?_⟩
  rw [h.2.2]
  decide

end GenFiles
